import Mathlib

/-!
Verification of the file-collection and report-emission core of pynocle
(`pynocle/utils.py`), via a shallow embedding of the Python code in Lean.

The embedding is POSIX-hosted where host behaviour matters:
`os.sep = '/'`, `os.altsep = None`, `os.path.normcase` is the identity.
Machine-level details that the claims do not touch (file handles, bytes on
disk) are abstracted: the filesystem is a structure of query functions, and
report sinks are traced as event lists.
-/

set_option autoImplicit false

namespace Pynocle

/-! ### `fnmatch` — shell-glob matching, following `fnmatch.translate`

`fnmatch.filter(names, pat)` keeps the names whose *entire* string matches
the pattern, where `*` matches any sequence (including `/` and newlines,
since the compiled regex uses DOTALL), `?` matches any single character, and
`[...]` is a character class with `!` negation and `a-b` ranges.  A `[` with
no closing `]` is a literal `[` (see the scan in `fnmatch.translate`).
On POSIX `os.path.normcase` is the identity, so no case folding happens. -/

/-- Split a character list at the first `]`, returning the part before it and
the part after it; `none` when there is no `]`.  Mirrors the
`while j < n and pat[j] != ']'` scan of `fnmatch.translate`. -/
def findClose : List Char → Option (List Char × List Char)
  | [] => none
  | ']' :: rest => some ([], rest)
  | c :: rest => (findClose rest).map (fun p => (c :: p.1, p.2))

/-- Given the characters after a `[`, find the class body (`stuff` in
`fnmatch.translate`) and the remainder of the pattern after the closing `]`.
A leading `!`, and a `]` right after it (or right at the start), are part of
the body, exactly as in the translate scan. -/
def bracketSpan (l : List Char) : Option (List Char × List Char) :=
  match l with
  | '!' :: ']' :: rest => (findClose rest).map (fun p => ('!' :: ']' :: p.1, p.2))
  | '!' :: rest => (findClose rest).map (fun p => ('!' :: p.1, p.2))
  | ']' :: rest => (findClose rest).map (fun p => (']' :: p.1, p.2))
  | _ => findClose l

/-- One token of a compiled glob pattern: `*`, `?`, a literal character, or
a character class carrying its raw body. -/
inductive GlobToken where
  | star : GlobToken
  | anyChar : GlobToken
  | lit : Char → GlobToken
  | cls : List Char → GlobToken
  deriving DecidableEq, Repr

/-- Tokenize a glob pattern; `fuel` only needs to exceed the pattern length
(each step consumes at least one character). -/
def parsePatternFuel : Nat → List Char → List GlobToken
  | 0, _ => []
  | _, [] => []
  | fuel + 1, c :: rest =>
    if c = '*' then GlobToken.star :: parsePatternFuel fuel rest
    else if c = '?' then GlobToken.anyChar :: parsePatternFuel fuel rest
    else if c = '[' then
      match bracketSpan rest with
      | none => GlobToken.lit '[' :: parsePatternFuel fuel rest
      | some (stuff, rem) => GlobToken.cls stuff :: parsePatternFuel fuel rem
    else GlobToken.lit c :: parsePatternFuel fuel rest

def parsePattern (pat : List Char) : List GlobToken :=
  parsePatternFuel (pat.length + 1) pat

/-- Membership of a character in a (non-negated) class body: `a-b` is a range
when a character follows the `-`; otherwise characters are literal. -/
def memberClass : List Char → Char → Bool
  | [], _ => false
  | a :: '-' :: b :: rest, c => (a ≤ c && c ≤ b) || memberClass rest c
  | a :: rest, c => (a == c) || memberClass rest c

/-- Match of a character against a class body, honouring a leading `!`. -/
def charClassMatch (stuff : List Char) (c : Char) : Bool :=
  match stuff with
  | '!' :: rest => !(memberClass rest c)
  | _ => memberClass stuff c

/-- Token-list against string matching.  The measure
`tokens.length + chars.length` strictly decreases at every recursive call, so
`fuel` larger than that measure is always enough and the `0` branch is never
reached from `fnmatchMatch`. -/
def tokMatchFuel : Nat → List GlobToken → List Char → Bool
  | 0, _, _ => false
  | _ + 1, [], [] => true
  | _ + 1, [], _ :: _ => false
  | fuel + 1, GlobToken.star :: ps, [] => tokMatchFuel fuel ps []
  | fuel + 1, GlobToken.star :: ps, c :: cs =>
    tokMatchFuel fuel ps (c :: cs) || tokMatchFuel fuel (GlobToken.star :: ps) cs
  | fuel + 1, GlobToken.anyChar :: ps, _ :: cs => tokMatchFuel fuel ps cs
  | _ + 1, GlobToken.anyChar :: _, [] => false
  | fuel + 1, GlobToken.lit a :: ps, c :: cs => (a == c) && tokMatchFuel fuel ps cs
  | _ + 1, GlobToken.lit _ :: _, [] => false
  | fuel + 1, GlobToken.cls stuff :: ps, c :: cs =>
    charClassMatch stuff c && tokMatchFuel fuel ps cs
  | _ + 1, GlobToken.cls _ :: _, [] => false

/-- `fnmatch.fnmatch(name, pat)` on POSIX: whole-string glob match. -/
def fnmatchMatch (name pat : String) : Bool :=
  let toks := parsePattern pat.data
  tokMatchFuel (toks.length + name.data.length + 1) toks name.data

/-- `fnmatch.filter(names, pattern)`: the sublist of names matching. -/
def fnmatchFilter (names : List String) (pattern : String) : List String :=
  names.filter (fun n => fnmatchMatch n pattern)

/-! ### POSIX path helpers used by `_FindAll` -/

/-- `str.startswith` over the underlying character lists. -/
def strStartsWith (s pre : String) : Bool :=
  pre.data.isPrefixOf s.data

/-- `str.endswith` over the underlying character lists. -/
def strEndsWith (s suf : String) : Bool :=
  suf.data.reverse.isPrefixOf s.data.reverse

/-- `os.path.join(d, x)` on POSIX for two components. -/
def posixJoin (d x : String) : String :=
  if strStartsWith x "/" then x
  else if d = "" || strEndsWith d "/" then d ++ x
  else d ++ "/" ++ x

/-- `os.path.basename(p)` on POSIX: everything after the last `/`. -/
def posixBasename (p : String) : String :=
  ⟨(p.data.reverse.takeWhile (fun c => c ≠ '/')).reverse⟩

/-! ### The host filesystem, and `_FindAll` / `find_all`

The filesystem is abstracted as the query functions the Python code calls:
`os.path.isfile`, `os.path.isdir`, `os.listdir` (returning child *names*)
and `os.path.abspath`.  Directory recursion in `findall` is bounded by a
fuel parameter standing for the (finite) depth of the host directory tree;
every concrete theorem below supplies ample fuel. -/

structure FileSystem where
  isfile : String → Bool
  isdir : String → Bool
  listdir : String → List String
  abspath : String → String

/-- The mutable state of the `_FindAll` helper class: the ordered result
list and the companion membership set.  The set is modelled as the list of
elements added to it (membership is all the code uses it for). -/
structure FindAllState where
  processed_files : List String
  processed_files_set : List String
  deriving DecidableEq, Repr

/-- `_FindAll.not_yet_processed`. -/
def not_yet_processed (st : FindAllState) (filename : String) : Bool :=
  !(st.processed_files_set.contains filename)

/-- `_FindAll.findfiles`: filter `filenames` by the glob pattern, keep those
not yet in the membership set, append them to the result list and add them
to the set.  Note the set is consulted *before* being updated, exactly as in
the Python (`unique = filter(self.not_yet_processed, files)` is evaluated
eagerly, then both containers are extended). -/
def findfiles (pattern : String) (st : FindAllState) (filenames : List String) :
    FindAllState :=
  if filenames.isEmpty then st
  else
    let files := fnmatchFilter filenames pattern
    let unique := files.filter (fun f => not_yet_processed st f)
    { processed_files := st.processed_files ++ unique
      processed_files_set := st.processed_files_set ++ unique }

/-- `_FindAll.findall`: process the files of the working set, then recurse
into each directory of the working set over its joined child paths. -/
def findall (fs : FileSystem) (pattern : String) :
    Nat → FindAllState → List String → FindAllState
  | 0, st, _ => st
  | fuel + 1, st, files_and_folders =>
    let st1 := findfiles pattern st (files_and_folders.filter fs.isfile)
    (files_and_folders.filter fs.isdir).foldl
      (fun st' d =>
        findall fs pattern fuel st' ((fs.listdir d).map (fun x => posixJoin d x)))
      st1

/-- `find_all(files_and_folders, pattern='*.py')`: run `_FindAll` over the
absolute forms of the roots and return its result list. -/
def find_all (fs : FileSystem) (fuel : Nat) (files_and_folders : List String)
    (pattern : String := "*.py") : List String :=
  (findall fs pattern fuel ⟨[], []⟩ (files_and_folders.map fs.abspath)).processed_files

/-! ### `write_report`

`write_report(filename, data, formatter_factory)` opens `filename` for
writing with a `with` statement, builds the formatter from the open stream,
and calls `format_report_header`, `format_data(data)`, `format_report_footer`
in that order.  The `with` statement closes the stream on every exit path
and re-raises any exception from the body.

The sink is traced as a list of events; a formatter's observable behaviour
is, for each lifecycle method, whether it returns or raises (the factory
itself is modelled as total, which is all the claims quantify over). -/

inductive Event where
  | opened : String → Event
  | headerCalled : Event
  | dataCalled : Event
  | footerCalled : Event
  | closed : Event
  deriving DecidableEq, Repr

/-- The behaviour of one `IReportFormatter` instance: each lifecycle method
either returns (`ok`) or raises an exception of type `ε`. -/
structure FormatterBehavior (δ ε : Type) where
  format_report_header : Except ε Unit
  format_data : δ → Except ε Unit
  format_report_footer : Except ε Unit

/-- `write_report`: returns the propagated outcome together with the event
trace of the sink.  A lifecycle method's event is recorded when the call is
made, whether or not it raises; `closed` is appended on every path, which is
the semantics of `with open(filename, 'w') as f:`. -/
def write_report {δ ε : Type} (filename : String) (data : δ)
    (formatter_factory : String → FormatterBehavior δ ε) :
    Except ε Unit × List Event :=
  let fmt := formatter_factory filename
  let body : Except ε Unit × List Event :=
    match fmt.format_report_header with
    | Except.error e => (Except.error e, [Event.headerCalled])
    | Except.ok _ =>
      match fmt.format_data data with
      | Except.error e => (Except.error e, [Event.headerCalled, Event.dataCalled])
      | Except.ok _ =>
        match fmt.format_report_footer with
        | Except.error e =>
          (Except.error e,
            [Event.headerCalled, Event.dataCalled, Event.footerCalled])
        | Except.ok _ =>
          (Except.ok (),
            [Event.headerCalled, Event.dataCalled, Event.footerCalled])
  (body.1, Event.opened filename :: body.2 ++ [Event.closed])

/-! ### `ExtensionFormatterRegistry`

Python values are modelled with just the two observables the registry code
uses: identity (to compare results) and truthiness (`if not result`). -/

structure PyVal where
  truthy : Bool
  ident : Nat
  deriving DecidableEq, Repr

/-- What `GetFormatterFactory` can return: a stored value unchanged (`raw`),
or the closure `lambda stream: result(stream, **kwargs)` (`closure`, recording
the captured constructor and keyword options). -/
inductive FactoryResult (K : Type) where
  | raw : PyVal → FactoryResult K
  | closure : PyVal → K → FactoryResult K
  deriving DecidableEq, Repr

/-- A call `constructor(stream, **kwargs)` made when a closure returned by
`GetFormatterFactory` is applied to a stream. -/
structure FactoryCall (K : Type) where
  ctor : PyVal
  stream : String
  kwargs : K
  deriving DecidableEq, Repr

/-- Applying a `FactoryResult` to a stream: a closure performs the recorded
constructor call; a raw value was not wrapped by `GetFormatterFactory`, so no
call of the shape `result(stream, **kwargs)` happens. -/
def applyFactory {K : Type} : FactoryResult K → String → Option (FactoryCall K)
  | FactoryResult.closure c kw, s => some ⟨c, s, kw⟩
  | FactoryResult.raw _, _ => none

/-- `ExtensionFormatterRegistry`: `self.mapping` is a dict from extension
strings to values, modelled by its lookup function. -/
structure ExtensionFormatterRegistry where
  mapping : String → Option PyVal

/-- `Register(ext, value)`: `self.mapping[ext] = value`. -/
def Register (r : ExtensionFormatterRegistry) (ext : String) (value : PyVal) :
    ExtensionFormatterRegistry :=
  ⟨fun e => if e = ext then some value else r.mapping e⟩

/-- `GetFormatter(ext, default=None)`: `self.mapping.get(ext, default)`. -/
def GetFormatter (r : ExtensionFormatterRegistry) (ext : String)
    (default : PyVal) : PyVal :=
  (r.mapping ext).getD default

/-- `GetFormatterFactory(ext, default=None, **kwargs)`: look up with default;
a falsy result is returned as-is, otherwise return
`lambda stream: result(stream, **kwargs)`. -/
def GetFormatterFactory {K : Type} (r : ExtensionFormatterRegistry)
    (ext : String) (default : PyVal) (kwargs : K) : FactoryResult K :=
  let result := GetFormatter r ext default
  if !result.truthy then FactoryResult.raw result
  else FactoryResult.closure result kwargs

/-! ### `flatten` — generator-based depth-first pre-order walk

A finite acyclic tree together with its caller-supplied child accessor is
exactly a rose tree: `PyTree.children` plays the role of `getchildren`. -/

inductive PyTree (A : Type) where
  | node : A → List (PyTree A) → PyTree A

def PyTree.val {A : Type} : PyTree A → A
  | .node v _ => v

/-- The caller-supplied `getchildren` accessor of the claims' trees. -/
def PyTree.children {A : Type} : PyTree A → List (PyTree A)
  | .node _ cs => cs

mutual
/-- `flatten(node, getchildren)`: yield the node, then recursively flatten
each child of `getchildren(node)` in order. -/
def flatten {A : Type} : PyTree A → List (PyTree A)
  | .node v cs => .node v cs :: flattenChildren cs
/-- The inner `for child in getchildren(node): for gc in flatten(child, …)`
loop of `flatten`, sequencing the children's walks in order. -/
def flattenChildren {A : Type} : List (PyTree A) → List (PyTree A)
  | [] => []
  | t :: ts => flatten t ++ flattenChildren ts
end

mutual
def treeSize {A : Type} : PyTree A → Nat
  | .node _ cs => 1 + forestSize cs
def forestSize {A : Type} : List (PyTree A) → Nat
  | [] => 0
  | t :: ts => treeSize t + forestSize ts
end

/-- An iterative worklist formulation of the depth-first pre-order walk,
independent of `flatten`'s recursion scheme: pop a node, emit it, push its
children in front of the remaining work.  `fuel` bounds the number of
emitted nodes; any `fuel ≥ forestSize l` is enough. -/
def preorderStackFuel {A : Type} : Nat → List (PyTree A) → List (PyTree A)
  | 0, _ => []
  | _ + 1, [] => []
  | fuel + 1, t :: rest => t :: preorderStackFuel fuel (t.children ++ rest)

/-- The tree `1 -> [2, 3]`, `2 -> [4]`, `3 -> []`, `4 -> []`. -/
def exTree : PyTree Nat :=
  .node 1 [.node 2 [.node 4 []], .node 3 []]

/-! ### `swap_keys_and_values`

Python dicts are modelled as association lists;
`dictInsert`/`dictOfPairs` give the semantics of `dict(pairs)`: a later
binding for an existing key overwrites it in place, a new key is appended.
Only lookup and `len` of the result are observable to the claims. -/

def dictInsert {A B : Type} [DecidableEq B] (m : List (B × A)) (kv : B × A) :
    List (B × A) :=
  if m.any (fun p => p.1 == kv.1) then
    m.map (fun p => if p.1 == kv.1 then kv else p)
  else m ++ [kv]

/-- `dict(pairs)`: fold the pairs into an initially empty dict. -/
def dictOfPairs {A B : Type} [DecidableEq B] (l : List (B × A)) : List (B × A) :=
  l.foldl dictInsert []

/-- `swap_keys_and_values(d)`: build `dict(zip(d.values(), d.keys()))`; when
`len(d) != len(result)` raise (a `KeyError` whose message carries
`d.values()` — the error value records those diagnostics). -/
def swap_keys_and_values {A B : Type} [DecidableEq B] (d : List (A × B)) :
    Except (List B) (List (B × A)) :=
  let result := dictOfPairs ((d.map Prod.snd).zip (d.map Prod.fst))
  if d.length ≠ result.length then Except.error (d.map Prod.snd)
  else Except.ok result

/-! ### `prettify_path`

`prettify_path` calls `str.replace(os.altsep, os.sep)`.  `os.altsep` is
`None` on POSIX, and `str.replace(None, …)` raises `TypeError`; the host
parameters (`os.sep`, `os.altsep`, `os.getcwd()`) are therefore explicit. -/

inductive PyError where
  | typeError : PyError
  deriving DecidableEq, Repr

structure OsParams where
  sep : Char
  altsep : Option Char
  cwd : String

/-- POSIX host: `os.sep = '/'`, `os.altsep = None`. -/
def posixOs : OsParams :=
  { sep := '/', altsep := none, cwd := "/home/user" }

/-- `s.replace(old, new)` for a one-character replacement where `old` may be
`None` (the type of `os.altsep`): Python raises `TypeError` on `None`. -/
def pyReplaceChar (s : String) (old : Option Char) (new : Char) :
    Except PyError String :=
  match old with
  | none => Except.error PyError.typeError
  | some o => Except.ok ⟨s.data.map (fun c => if c = o then new else c)⟩

/-- `s.replace(old, new)` for non-empty `old`: replace non-overlapping
occurrences left to right. -/
def strReplaceNe (o : Char) (orest new : List Char) : List Char → List Char
  | [] => []
  | c :: cs =>
    if (o :: orest).isPrefixOf (c :: cs) then
      new ++ strReplaceNe o orest new (cs.drop orest.length)
    else c :: strReplaceNe o orest new cs
termination_by l => l.length
decreasing_by
  · have h : (cs.drop orest.length).length ≤ cs.length := by
      simp [List.length_drop]
    simp only [List.length_cons]
    omega
  · simp

/-- `s.replace(old, new)`: with empty `old`, Python interleaves `new` around
every character; otherwise replace occurrences left to right. -/
def strReplace (s old new : String) : String :=
  match old.data with
  | [] => ⟨new.data ++ s.data.foldr (fun c acc => c :: (new.data ++ acc)) []⟩
  | o :: orest => ⟨strReplaceNe o orest new.data s.data⟩

/-- `str.rfind(c)`: highest index of `c`, or `-1`. -/
def rfindChar (l : List Char) (c : Char) : Int :=
  match l.reverse.findIdx? (fun x => x == c) with
  | none => -1
  | some j => ((l.length - 1 - j : Nat) : Int)

/-- `os.path.splitext(p)` (`genericpath._splitext` with `extsep = '.'`):
split at the last dot of the basename unless the basename is all dots. -/
def pySplitext (os : OsParams) (p : String) : String × String :=
  let l := p.data
  let sepIndex : Int :=
    match os.altsep with
    | some a => max (rfindChar l os.sep) (rfindChar l a)
    | none => rfindChar l os.sep
  let dotIndex : Int := rfindChar l '.'
  if dotIndex > sepIndex then
    let filenameIndex := (sepIndex + 1).toNat
    let base := (l.drop filenameIndex).take (dotIndex.toNat - filenameIndex)
    if base.any (fun c => c ≠ '.') then
      (⟨l.take dotIndex.toNat⟩, ⟨l.drop dotIndex.toNat⟩)
    else (p, "")
  else (p, "")

/-- `s.strip(c)`: drop `c` from both ends. -/
def pyStripChar (s : String) (c : Char) : String :=
  ⟨((s.data.dropWhile (fun x => x = c)).reverse.dropWhile (fun x => x = c)).reverse⟩

/-- `prettify_path(path, leading=None)`: normalize `leading or os.getcwd()`
and `path` with `replace(os.altsep, os.sep)` (raising `TypeError` when
`os.altsep` is `None`), strip the extension, remove all occurrences of
`leading` when `path` starts with it, and strip `os.sep` from both ends. -/
def prettify_path (os : OsParams) (path : String) (leading : Option String) :
    Except PyError String := do
  let lead0 := match leading with
    | some l => if l = "" then os.cwd else l
    | none => os.cwd
  let leading2 ← pyReplaceChar lead0 os.altsep os.sep
  let pathNorm ← pyReplaceChar path os.altsep os.sep
  let s0 := (pySplitext os pathNorm).1
  let s1 := if strStartsWith s0 leading2 then strReplace s0 leading2 "" else s0
  return pyStripChar s1 os.sep

/-! ### Concrete hosts and fixtures used by the theorems -/

/-- The empty registry (`ExtensionFormatterRegistry()`). -/
def regEmpty : ExtensionFormatterRegistry := ⟨fun _ => none⟩

/-- A registry with a truthy constructor under `".csv"`. -/
def regCsv : ExtensionFormatterRegistry :=
  ⟨fun e => if e = ".csv" then some ⟨true, 3⟩ else none⟩

/-- A registry with a falsy value registered under `".nul"`. -/
def regFalsy : ExtensionFormatterRegistry :=
  ⟨fun e => if e = ".nul" then some ⟨false, 9⟩ else none⟩

/-- The directory tree `root/{a.py, b.txt, sub/{c.py}}` of the spec's
test scenario, with `listdir` enumerating `a.py` first. -/
def fsTree : FileSystem where
  isfile p := p = "/root/a.py" || p = "/root/b.txt" || p = "/root/sub/c.py"
  isdir p := p = "/root" || p = "/root/sub"
  listdir p :=
    if p = "/root" then ["a.py", "b.txt", "sub"]
    else if p = "/root/sub" then ["c.py"] else []
  abspath p := p

/-- The same tree with the host enumerating the subdirectory first. -/
def fsTreeRev : FileSystem where
  isfile p := p = "/root/a.py" || p = "/root/b.txt" || p = "/root/sub/c.py"
  isdir p := p = "/root" || p = "/root/sub"
  listdir p :=
    if p = "/root" then ["sub", "b.txt", "a.py"]
    else if p = "/root/sub" then ["c.py"] else []
  abspath p := p

/-- A host with the single file `/a.py` (and no directories). -/
def fsSingle : FileSystem where
  isfile p := p = "/a.py"
  isdir _ := false
  listdir _ := []
  abspath p := p

/-- A host with the single file `/d/ab.py`. -/
def fsAb : FileSystem where
  isfile p := p = "/d/ab.py"
  isdir _ := false
  listdir _ := []
  abspath p := p

/-- A formatter whose `format_data` raises the exception `7`. -/
def fbDataRaises : FormatterBehavior Nat Nat where
  format_report_header := Except.ok ()
  format_data := fun _ => Except.error 7
  format_report_footer := Except.ok ()

/-- The `_FindAll` state invariant the dedup argument rests on: the result
list has no duplicates, and the membership set holds exactly its elements. -/
def FindAllInv (st : FindAllState) : Prop :=
  st.processed_files.Nodup ∧ st.processed_files_set = st.processed_files

end Pynocle

namespace Pynocle

/-! ### Claim theorems -/

/-- C3: over `root/{a.py, b.txt, sub/{c.py}}`, `find_all([root], "*.py")`
returns exactly `root/a.py` then `root/sub/c.py` — the file at the top level
comes before the file found by descending — whichever way the host
enumerates the directory. -/
theorem find_all_C3 :
    find_all fsTree 5 ["/root"] "*.py" = ["/root/a.py", "/root/sub/c.py"] ∧
    find_all fsTreeRev 5 ["/root"] "*.py" = ["/root/a.py", "/root/sub/c.py"] := by
  decide

/-- C2: `write_report` opens the sink and closes it on every exit path; an
exception from header, data or footer propagates unmodified after the close;
on success the three formatter calls happen in order header, data, footer. -/
theorem write_report_C2 {δ ε : Type} (filename : String) (data : δ)
    (factory : String → FormatterBehavior δ ε) :
    (write_report filename data factory).2.head? = some (Event.opened filename) ∧
    (write_report filename data factory).2.getLast? = some Event.closed ∧
    (∀ e, (factory filename).format_report_header = Except.error e →
      (write_report filename data factory).1 = Except.error e ∧
      (write_report filename data factory).2 =
        [Event.opened filename, Event.headerCalled, Event.closed]) ∧
    (∀ e, (factory filename).format_report_header = Except.ok () →
      (factory filename).format_data data = Except.error e →
      (write_report filename data factory).1 = Except.error e ∧
      (write_report filename data factory).2 =
        [Event.opened filename, Event.headerCalled, Event.dataCalled,
          Event.closed]) ∧
    (∀ e, (factory filename).format_report_header = Except.ok () →
      (factory filename).format_data data = Except.ok () →
      (factory filename).format_report_footer = Except.error e →
      (write_report filename data factory).1 = Except.error e ∧
      (write_report filename data factory).2 =
        [Event.opened filename, Event.headerCalled, Event.dataCalled,
          Event.footerCalled, Event.closed]) ∧
    ((factory filename).format_report_header = Except.ok () →
      (factory filename).format_data data = Except.ok () →
      (factory filename).format_report_footer = Except.ok () →
      (write_report filename data factory).1 = Except.ok () ∧
      (write_report filename data factory).2 =
        [Event.opened filename, Event.headerCalled, Event.dataCalled,
          Event.footerCalled, Event.closed]) := by
  rcases hh : (factory filename).format_report_header with eh | ⟨⟩
  · simp [write_report, hh]
  · rcases hd : (factory filename).format_data data with ed | ⟨⟩
    · simp [write_report, hh, hd]
    · rcases hf : (factory filename).format_report_footer with ef | ⟨⟩
      · simp [write_report, hh, hd, hf]
      · simp [write_report, hh, hd, hf]

/-- Witness for C2 at a formatter whose `format_data` raises `7`: the sink
trace still ends with `closed` and the exception propagates. -/
theorem write_report_C2_witness :
    (write_report "report.txt" (5 : Nat) (fun _ => fbDataRaises)).1 =
      Except.error 7 ∧
    (write_report "report.txt" (5 : Nat) (fun _ => fbDataRaises)).2 =
      [Event.opened "report.txt", Event.headerCalled, Event.dataCalled,
        Event.closed] :=
  (write_report_C2 "report.txt" 5 (fun _ => fbDataRaises)).2.2.2.1 7 rfl rfl

/-- C9: re-registering a key always succeeds and the last registration wins,
while every other key's lookup is unchanged. -/
theorem Register_C9 (r : ExtensionFormatterRegistry) (key : String)
    (c1 c2 default : PyVal) :
    GetFormatter (Register (Register r key c1) key c2) key default = c2 ∧
    ∀ k, k ≠ key →
      GetFormatter (Register (Register r key c1) key c2) k default =
        GetFormatter r k default := by
  refine ⟨by simp [GetFormatter, Register], fun k hk => ?_⟩
  simp [GetFormatter, Register, hk]

/-- Witness for C9 at the empty registry with key `".csv"`. -/
theorem Register_C9_witness :
    GetFormatter (Register (Register regEmpty ".csv" ⟨true, 1⟩) ".csv" ⟨true, 2⟩)
      ".csv" ⟨false, 0⟩ = ⟨true, 2⟩ ∧
    GetFormatter (Register (Register regEmpty ".csv" ⟨true, 1⟩) ".csv" ⟨true, 2⟩)
      ".html" ⟨false, 0⟩ = GetFormatter regEmpty ".html" ⟨false, 0⟩ :=
  ⟨(Register_C9 regEmpty ".csv" ⟨true, 1⟩ ⟨true, 2⟩ ⟨false, 0⟩).1,
   (Register_C9 regEmpty ".csv" ⟨true, 1⟩ ⟨true, 2⟩ ⟨false, 0⟩).2 ".html"
     (by decide)⟩

/-- Counterexample to C4: for a missing extension a *truthy* default is not
returned unchanged — `GetFormatterFactory` wraps it in a closure. -/
theorem GetFormatterFactory_C4_cex :
    GetFormatterFactory regEmpty ".x" ⟨true, 1⟩ (0 : Nat) ≠
      FactoryResult.raw ⟨true, 1⟩ ∧
    GetFormatterFactory regEmpty ".x" ⟨true, 1⟩ (0 : Nat) =
      FactoryResult.closure ⟨true, 1⟩ 0 := by decide

/-- C4 (amended): for a missing extension a falsy default is returned
unchanged, but a truthy default is wrapped in a closure binding the options
exactly as a registered constructor would be; for an extension mapped to a
truthy constructor the result is the closure that, applied to a sink, calls
the constructor with the sink and the bound keyword options. -/
theorem GetFormatterFactory_C4_amended {K : Type} (r : ExtensionFormatterRegistry)
    (ext : String) (default : PyVal) (kwargs : K) :
    (r.mapping ext = none →
      GetFormatterFactory r ext default kwargs =
        if default.truthy then FactoryResult.closure default kwargs
        else FactoryResult.raw default) ∧
    (∀ ctor, r.mapping ext = some ctor → ctor.truthy = true →
      GetFormatterFactory r ext default kwargs =
        FactoryResult.closure ctor kwargs ∧
      ∀ sink, applyFactory (GetFormatterFactory r ext default kwargs) sink =
        some ⟨ctor, sink, kwargs⟩) := by
  constructor
  · intro h
    cases hdt : default.truthy <;>
      simp [GetFormatterFactory, GetFormatter, h, hdt]
  · intro ctor hreg htr
    simp [GetFormatterFactory, GetFormatter, hreg, htr, applyFactory]

/-- Witness for the amended C4: falsy default on a missing key comes back
as-is; the `".csv"` constructor comes back as a closure that calls it with
the sink and the options. -/
theorem GetFormatterFactory_C4_witness :
    GetFormatterFactory regCsv ".unknown" ⟨false, 0⟩ (0 : Nat) =
      FactoryResult.raw ⟨false, 0⟩ ∧
    GetFormatterFactory regCsv ".csv" ⟨false, 0⟩ (44 : Nat) =
      FactoryResult.closure ⟨true, 3⟩ 44 ∧
    applyFactory (GetFormatterFactory regCsv ".csv" ⟨false, 0⟩ (44 : Nat))
      "sink" = some ⟨⟨true, 3⟩, "sink", 44⟩ := by
  refine ⟨?_, ?_, ?_⟩
  · have h := (GetFormatterFactory_C4_amended regCsv ".unknown" ⟨false, 0⟩
      (0 : Nat)).1 rfl
    simpa using h
  · exact ((GetFormatterFactory_C4_amended regCsv ".csv" ⟨false, 0⟩
      (44 : Nat)).2 ⟨true, 3⟩ rfl rfl).1
  · exact ((GetFormatterFactory_C4_amended regCsv ".csv" ⟨false, 0⟩
      (44 : Nat)).2 ⟨true, 3⟩ rfl rfl).2 "sink"

/-- C10: a registered falsy constructor is returned unwrapped, with exactly
the same result shape as a falsy default on a missing key. -/
theorem GetFormatterFactory_C10 {K : Type} (r : ExtensionFormatterRegistry)
    (ext : String) (ctor default : PyVal) (kwargs : K)
    (hreg : r.mapping ext = some ctor) (hfalsy : ctor.truthy = false) :
    GetFormatterFactory r ext default kwargs = FactoryResult.raw ctor ∧
    ∀ (r2 : ExtensionFormatterRegistry) (e2 : String), r2.mapping e2 = none →
      GetFormatterFactory r2 e2 ctor kwargs = FactoryResult.raw ctor := by
  constructor
  · simp [GetFormatterFactory, GetFormatter, hreg, hfalsy]
  · intro r2 e2 h2
    simp [GetFormatterFactory, GetFormatter, h2, hfalsy]

/-- Witness for C10: the falsy value registered under `".nul"` comes back
raw, indistinguishable from itself used as a falsy default on a miss. -/
theorem GetFormatterFactory_C10_witness :
    GetFormatterFactory regFalsy ".nul" ⟨true, 1⟩ (0 : Nat) =
      FactoryResult.raw ⟨false, 9⟩ ∧
    GetFormatterFactory regEmpty ".nul" ⟨false, 9⟩ (0 : Nat) =
      FactoryResult.raw ⟨false, 9⟩ :=
  ⟨(GetFormatterFactory_C10 regFalsy ".nul" ⟨false, 9⟩ ⟨true, 1⟩ 0 rfl rfl).1,
   (GetFormatterFactory_C10 regFalsy ".nul" ⟨false, 9⟩ ⟨true, 1⟩ 0 rfl rfl).2
     regEmpty ".nul" rfl⟩

/-- C7: on a POSIX host (`os.altsep = None`) the spec's example does not
return `"src/mod"` — `prettify_path` raises `TypeError` at
`(leading or os.getcwd()).replace(os.altsep, os.sep)`. -/
theorem prettify_path_C7 :
    prettify_path posixOs "/home/user/proj/src/mod.py"
      (some "/home/user/proj") = Except.error PyError.typeError := rfl

/-! #### C8 — `flatten` is the depth-first pre-order walk -/

theorem forestSize_append {A : Type} (a b : List (PyTree A)) :
    forestSize (a ++ b) = forestSize a + forestSize b := by
  induction a with
  | nil => simp [forestSize]
  | cons t ts ih => simp [forestSize, ih]; omega

theorem flattenChildren_append {A : Type} (a b : List (PyTree A)) :
    flattenChildren (a ++ b) = flattenChildren a ++ flattenChildren b := by
  induction a with
  | nil => simp [flattenChildren]
  | cons t ts ih => simp [flattenChildren, ih]

theorem forestSize_pos {A : Type} (t : PyTree A) (rest : List (PyTree A)) :
    1 ≤ forestSize (t :: rest) := by
  cases t with
  | node v cs => simp [forestSize, treeSize]; omega

/-- C8: `flatten` yields the node first and then the flattening of each
child in order; it coincides with the iterative worklist pre-order walk
whenever the fuel covers the tree; over `1 -> [2,3]`, `2 -> [4]` it yields
`[1, 2, 4, 3]`. -/
theorem flatten_C8 :
    (∀ (A : Type) (t : PyTree A), flatten t = t :: flattenChildren t.children) ∧
    (∀ (A : Type) (fuel : Nat) (l : List (PyTree A)), forestSize l ≤ fuel →
      flattenChildren l = preorderStackFuel fuel l) ∧
    (flatten exTree).map PyTree.val = [1, 2, 4, 3] := by
  refine ⟨fun A t => ?_, fun A => ?_, by decide⟩
  · cases t with
    | node v cs => simp [flatten, PyTree.children]
  · intro fuel
    induction fuel with
    | zero =>
      intro l hl
      cases l with
      | nil => simp [flattenChildren, preorderStackFuel]
      | cons t rest =>
        have h1 := forestSize_pos t rest
        omega
    | succ n ih =>
      intro l hl
      cases l with
      | nil => simp [flattenChildren, preorderStackFuel]
      | cons t rest =>
        cases t with
        | node v cs =>
          have hsz : forestSize (cs ++ rest) ≤ n := by
            have := forestSize_append cs rest
            simp [forestSize, treeSize] at hl
            omega
          rw [preorderStackFuel, flattenChildren, flatten, PyTree.children,
            ← ih (cs ++ rest) hsz, flattenChildren_append]
          simp

/-- Witness for C8 at the example tree (fuel `4 = forestSize [exTree]`). -/
theorem flatten_C8_witness :
    flatten exTree = exTree :: flattenChildren exTree.children ∧
    flattenChildren [exTree] = preorderStackFuel 4 [exTree] ∧
    (flatten exTree).map PyTree.val = [1, 2, 4, 3] :=
  ⟨flatten_C8.1 Nat exTree, flatten_C8.2.1 Nat 4 [exTree] (by decide),
    flatten_C8.2.2⟩

/-! #### C6 — `swap_keys_and_values` -/

theorem keys_dictInsert {A B : Type} [DecidableEq B] (m : List (B × A))
    (kv : B × A) :
    (dictInsert m kv).map Prod.fst =
      if kv.1 ∈ m.map Prod.fst then m.map Prod.fst
      else m.map Prod.fst ++ [kv.1] := by
  unfold dictInsert
  by_cases h : kv.1 ∈ m.map Prod.fst
  · have hany : (m.any fun p => p.1 == kv.1) = true := by
      rw [List.any_eq_true]
      obtain ⟨p, hp, hpe⟩ := List.mem_map.mp h
      exact ⟨p, hp, by simp [hpe]⟩
    rw [if_pos hany, if_pos h, List.map_map]
    apply List.map_congr_left
    intro p hp
    by_cases hpk : p.1 = kv.1 <;> simp [hpk]
  · have hany : (m.any fun p => p.1 == kv.1) = false := by
      rw [List.any_eq_false]
      intro p hp
      simp only [beq_iff_eq]
      intro hpe
      exact h (hpe ▸ List.mem_map_of_mem Prod.fst hp)
    rw [if_neg (by simp [hany]), if_neg h]
    simp

theorem length_dictInsert {A B : Type} [DecidableEq B] (m : List (B × A))
    (kv : B × A) :
    (dictInsert m kv).length =
      if kv.1 ∈ m.map Prod.fst then m.length else m.length + 1 := by
  by_cases hm : kv.1 ∈ m.map Prod.fst
  · have h := keys_dictInsert m kv
    rw [if_pos hm] at h
    have h2 := congrArg List.length h
    simp only [List.length_map] at h2
    rw [if_pos hm]
    exact h2
  · have h := keys_dictInsert m kv
    rw [if_neg hm] at h
    have h2 := congrArg List.length h
    simp only [List.length_map, List.length_append, List.length_cons,
      List.length_nil] at h2
    rw [if_neg hm]
    omega

theorem mem_keys_dictInsert {A B : Type} [DecidableEq B] (m : List (B × A))
    (kv : B × A) (x : B) :
    x ∈ (dictInsert m kv).map Prod.fst ↔ x ∈ m.map Prod.fst ∨ x = kv.1 := by
  rw [keys_dictInsert]
  by_cases hm : kv.1 ∈ m.map Prod.fst
  · rw [if_pos hm]
    constructor
    · exact Or.inl
    · rintro (h | rfl)
      · exact h
      · exact hm
  · rw [if_neg hm]
    simp

theorem keys_foldl_toFinset {A B : Type} [DecidableEq B] :
    ∀ (l acc : List (B × A)),
      ((List.foldl dictInsert acc l).map Prod.fst).toFinset =
        (acc.map Prod.fst).toFinset ∪ (l.map Prod.fst).toFinset := by
  intro l
  induction l with
  | nil => intro acc; simp
  | cons kv rest ih =>
    intro acc
    rw [List.foldl_cons, ih]
    ext x
    simp only [Finset.mem_union, List.mem_toFinset, mem_keys_dictInsert,
      List.map_cons, List.mem_cons]
    tauto

theorem keysNodup_foldl {A B : Type} [DecidableEq B] :
    ∀ (l acc : List (B × A)), ((acc.map Prod.fst)).Nodup →
      ((List.foldl dictInsert acc l).map Prod.fst).Nodup := by
  intro l
  induction l with
  | nil => intro acc h; simpa using h
  | cons kv rest ih =>
    intro acc h
    rw [List.foldl_cons]
    apply ih
    rw [keys_dictInsert]
    by_cases hm : kv.1 ∈ acc.map Prod.fst
    · simpa [hm] using h
    · simp only [hm, if_false]
      simp [List.nodup_append, h, hm]

theorem dictOfPairs_length {A B : Type} [DecidableEq B] (l : List (B × A)) :
    (dictOfPairs l).length = (l.map Prod.fst).toFinset.card := by
  have h1 : ((dictOfPairs l).map Prod.fst).toFinset =
      (l.map Prod.fst).toFinset := by
    have h := keys_foldl_toFinset l ([] : List (B × A))
    simpa [dictOfPairs] using h
  have h2 : ((dictOfPairs l).map Prod.fst).Nodup :=
    keysNodup_foldl l [] (by simp)
  calc (dictOfPairs l).length
      = ((dictOfPairs l).map Prod.fst).length := by simp
    _ = ((dictOfPairs l).map Prod.fst).toFinset.card :=
        (List.toFinset_card_of_nodup h2).symm
    _ = (l.map Prod.fst).toFinset.card := by rw [h1]

theorem dictOfPairs_eq_self_aux {A B : Type} [DecidableEq B] :
    ∀ (l acc : List (B × A)),
      ((acc.map Prod.fst) ++ (l.map Prod.fst)).Nodup →
      List.foldl dictInsert acc l = acc ++ l := by
  intro l
  induction l with
  | nil => intro acc _; simp
  | cons kv rest ih =>
    intro acc h
    have hnotin : kv.1 ∉ acc.map Prod.fst := by
      rw [List.nodup_append] at h
      intro hmem
      exact h.2.2 hmem (by simp)
    have hany : (acc.any fun p => p.1 == kv.1) = false := by
      rw [List.any_eq_false]
      intro p hp
      simp only [beq_iff_eq]
      intro hpe
      exact hnotin (hpe ▸ List.mem_map_of_mem Prod.fst hp)
    rw [List.foldl_cons]
    have hins : dictInsert acc kv = acc ++ [kv] := by
      unfold dictInsert
      simp [hany]
    rw [hins]
    have hnd : (((acc ++ [kv]).map Prod.fst) ++ (rest.map Prod.fst)).Nodup := by
      simpa using h
    have := ih (acc ++ [kv]) hnd
    simpa using this

theorem zip_values_keys {A B : Type} (d : List (A × B)) :
    (d.map Prod.snd).zip (d.map Prod.fst) = d.map Prod.swap := by
  induction d with
  | nil => simp
  | cons p rest ih => simp [Prod.swap, ih]

/-- C6: on a dict with pairwise-distinct values, `swap_keys_and_values`
returns the inverse mapping; when two keys share a value, it raises the
duplicate-value error carrying the original values, the duplication being
detected by comparing `len(d)` with the length of the inverted dict. -/
theorem swap_keys_and_values_C6 {A B : Type} [DecidableEq B]
    (d : List (A × B)) :
    ((d.map Prod.snd).Nodup →
      swap_keys_and_values d = Except.ok (d.map Prod.swap)) ∧
    (¬ (d.map Prod.snd).Nodup →
      swap_keys_and_values d = Except.error (d.map Prod.snd)) := by
  constructor
  · intro hnd
    unfold swap_keys_and_values
    rw [zip_values_keys]
    have hkeys : ((d.map Prod.swap).map Prod.fst) = d.map Prod.snd := by
      rw [List.map_map]
      apply List.map_congr_left
      intro p _
      simp
    have heq : dictOfPairs (d.map Prod.swap) = d.map Prod.swap := by
      have h := dictOfPairs_eq_self_aux (d.map Prod.swap) []
      simp only [List.map_nil, List.nil_append, hkeys] at h
      simpa [dictOfPairs] using h hnd
    rw [heq]
    simp
  · intro hnd
    unfold swap_keys_and_values
    rw [zip_values_keys]
    have hlen : (dictOfPairs (d.map Prod.swap)).length =
        (d.map Prod.snd).toFinset.card := by
      rw [dictOfPairs_length]
      have hk : (d.map Prod.swap).map Prod.fst = d.map Prod.snd := by
        rw [List.map_map]
        apply List.map_congr_left
        intro p _
        simp
      rw [hk]
    have hlt : (d.map Prod.snd).toFinset.card < (d.map Prod.snd).length := by
      rw [List.card_toFinset]
      have hsub := (d.map Prod.snd).dedup_sublist
      have hle := hsub.length_le
      rcases lt_or_eq_of_le hle with hcase | hcase
      · exact hcase
      · exact absurd (List.dedup_eq_self.mp (hsub.eq_of_length hcase)) hnd
    have hne : d.length ≠ (dictOfPairs (d.map Prod.swap)).length := by
      rw [hlen]
      have : (d.map Prod.snd).length = d.length := by simp
      omega
    simp [hne]

/-- Witness for C6 at the spec's examples `{'a':1, 'b':2}` and
`{'a':1, 'b':1}`. -/
theorem swap_keys_and_values_C6_witness :
    swap_keys_and_values [("a", 1), ("b", 2)] = Except.ok [(1, "a"), (2, "b")] ∧
    swap_keys_and_values [("a", 1), ("b", 1)] = Except.error [1, 1] :=
  ⟨by
    have h := (swap_keys_and_values_C6 [("a", 1), ("b", 2)]).1 (by decide)
    simpa using h,
   by
    have h := (swap_keys_and_values_C6 [("a", 1), ("b", 1)]).2 (by decide)
    simpa using h⟩

/-! #### C1 and C5 — `find_all` deduplication and matching -/

theorem foldl_preserve {σ α : Type} (P : σ → Prop) (f : σ → α → σ)
    (h : ∀ s a, P s → P (f s a)) :
    ∀ (l : List α) (s : σ), P s → P (List.foldl f s l) := by
  intro l
  induction l with
  | nil => intro s hs; simpa using hs
  | cons a rest ih =>
    intro s hs
    rw [List.foldl_cons]
    exact ih _ (h s a hs)

theorem findfiles_matches (pattern : String) (st : FindAllState)
    (filenames : List String)
    (h : ∀ f ∈ st.processed_files, fnmatchMatch f pattern = true) :
    ∀ f ∈ (findfiles pattern st filenames).processed_files,
      fnmatchMatch f pattern = true := by
  intro f hf
  unfold findfiles at hf
  split at hf
  · exact h f hf
  · simp only [List.mem_append] at hf
    rcases hf with hf | hf
    · exact h f hf
    · have hf2 := List.mem_filter.mp hf
      have hf3 := List.mem_filter.mp hf2.1
      exact hf3.2

theorem findall_matches (fs : FileSystem) (pattern : String) :
    ∀ (fuel : Nat) (batch : List String) (st : FindAllState),
      (∀ f ∈ st.processed_files, fnmatchMatch f pattern = true) →
      ∀ f ∈ (findall fs pattern fuel st batch).processed_files,
        fnmatchMatch f pattern = true := by
  intro fuel
  induction fuel with
  | zero => intro batch st h; simpa [findall] using h
  | succ n ih =>
    intro batch st h
    rw [findall]
    exact foldl_preserve
      (fun st2 => ∀ f ∈ st2.processed_files, fnmatchMatch f pattern = true)
      _ (fun s d hs => ih _ s hs) _ _ (findfiles_matches pattern st _ h)

theorem findfiles_inv (pattern : String) (st : FindAllState)
    (filenames : List String) (h : FindAllInv st) (hb : filenames.Nodup) :
    FindAllInv (findfiles pattern st filenames) := by
  unfold findfiles
  split
  · exact h
  · constructor
    · apply List.Nodup.append h.1 ((hb.filter _).filter _)
      intro a ha hau
      have h2 := (List.mem_filter.mp hau).2
      unfold not_yet_processed at h2
      rw [h.2] at h2
      simp at h2
      exact h2 ha
    · rw [h.2]

theorem findall_inv (fs : FileSystem) (pattern : String)
    (hfs : ∀ d : String, ((fs.listdir d).map (fun x => posixJoin d x)).Nodup) :
    ∀ (fuel : Nat) (batch : List String) (st : FindAllState),
      FindAllInv st → batch.Nodup →
      FindAllInv (findall fs pattern fuel st batch) := by
  intro fuel
  induction fuel with
  | zero => intro batch st h _; simpa [findall] using h
  | succ n ih =>
    intro batch st h hb
    rw [findall]
    apply foldl_preserve FindAllInv
    · intro s d hs
      exact ih _ s hs (hfs d)
    · exact findfiles_inv pattern st _ h (hb.filter _)

/-- Counterexample to C1: the same matching file root passed twice lands in
the result twice — the dedup filter is evaluated against the membership set
before the set is updated, so duplicates inside one batch both pass. -/
theorem find_all_C1_cex :
    find_all fsSingle 3 ["/a.py", "/a.py"] "*.py" = ["/a.py", "/a.py"] ∧
    ¬ (find_all fsSingle 3 ["/a.py", "/a.py"] "*.py").Nodup := by decide

/-- C1 (amended): `find_all` returns a duplicate-free sequence provided the
absolute-resolved input roots are pairwise distinct (directory listings of a
real host are duplicate-free, the stated `hfs`); overlap of directory trees
across distinct roots is still deduplicated.  When the same matching file
occurs more than once among the resolved roots, it occurs more than once in
the output (see the counterexample). -/
theorem find_all_C1_amended (fs : FileSystem) (fuel : Nat)
    (roots : List String) (pattern : String)
    (hfs : ∀ d : String, ((fs.listdir d).map (fun x => posixJoin d x)).Nodup)
    (hroots : (roots.map fs.abspath).Nodup) :
    (find_all fs fuel roots pattern).Nodup :=
  (findall_inv fs pattern hfs fuel _ ⟨[], []⟩ ⟨List.nodup_nil, rfl⟩ hroots).1

/-- Witness for the amended C1 on a concrete host with distinct roots. -/
theorem find_all_C1_witness :
    (find_all fsSingle 3 ["/a.py", "/b.py"] "*.py").Nodup :=
  find_all_C1_amended fsSingle 3 ["/a.py", "/b.py"] "*.py"
    (fun d => by simp [fsSingle]) (by decide)

/-- Counterexample to C5: the base name `ab.py` of the file `/d/ab.py`
matches `a*`, yet the file is not collected — `fnmatch.filter` is applied to
full absolute paths, and `/d/ab.py` does not match `a*`. -/
theorem find_all_C5_cex :
    posixBasename "/d/ab.py" = "ab.py" ∧
    fnmatchMatch (posixBasename "/d/ab.py") "a*" = true ∧
    find_all fsAb 3 ["/d/ab.py"] "a*" = [] ∧
    ¬ ("/d/ab.py" ∈ find_all fsAb 3 ["/d/ab.py"] "a*" ↔
        fnmatchMatch (posixBasename "/d/ab.py") "a*" = true) := by decide

/-- C5 (amended): the pattern is matched with shell-glob semantics against
the file's full absolute path, not its base name: every path `find_all`
returns matches the pattern as a whole string (and a file whose base name
matches but whose full path does not is excluded — see the counterexample). -/
theorem find_all_C5_amended (fs : FileSystem) (fuel : Nat)
    (roots : List String) (pattern : String) :
    ∀ f ∈ find_all fs fuel roots pattern, fnmatchMatch f pattern = true := by
  intro f hf
  exact findall_matches fs pattern fuel _ ⟨[], []⟩ (by simp) f hf

/-- Witness for the amended C5 on the concrete tree: the collected path
`/root/a.py` indeed matches `*.py` as a full string. -/
theorem find_all_C5_witness :
    fnmatchMatch "/root/a.py" "*.py" = true :=
  find_all_C5_amended fsTree 5 ["/root"] "*.py" "/root/a.py" (by decide)

end Pynocle
